import Mathlib

/-!
Verification of the maman single-domain web crawler (src/src/maman/mod.rs).

The development shallowly embeds the crawler's core: the URL model needed by
the link filter, the `Page` record and its filter methods (`parsed_url`,
`parsed_url_without_fragment`, `url_eq`, `domain_eq`, `can_enqueue`), the
job serialization (`impl ToJson for Page`), and the frontier controller
(`Spider`: `is_visited`, `read_response`, `visit_page`, `visit`, `crawl`).

External library calls (the `url` crate parser, the HTTP client, the HTML
tokenizer, the Redis client, the random generator, the clock) are modelled as
parameters: the embedding quantifies over them, and each crawl-level theorem
states which properties of those externals it assumes.
-/

namespace Maman

/-- Model of the host component of a parsed URL (`url::Host`): either a
registrable domain name, or an IP address. -/
inductive Host where
  | domain (d : String)
  | ipv4 (a b c d : Nat)
  | ipv6 (segments : List Nat)
deriving DecidableEq, Repr

/-- Model of a parsed URL (`url::Url`): the components the crawler reads.
Equality of two `Url` values models equality of parsed URLs in the `url`
crate (component-wise, no extra normalization). -/
structure Url where
  scheme : String
  host : Option Host
  port : Option Nat
  path : String
  query : Option String
  fragment : Option String
deriving DecidableEq, Repr

/-- `Url::domain()`: returns the host as a string only when the host is a
registrable domain name; `none` when the host is absent or an IP address. -/
def Url.domain (u : Url) : Option String :=
  match u.host with
  | some (Host.domain d) => some d
  | _ => none

/-- `Url::set_fragment`: replaces the fragment component. -/
def Url.set_fragment (u : Url) (f : Option String) : Url :=
  { u with fragment := f }

/-- The fragment-stripping operation used by `parsed_url_without_fragment`
(`u.set_fragment(None)` in the source). -/
def Url.strip_fragment (u : Url) : Url :=
  u.set_fragment none

/-- Outcome of `Url::parse`. The crawler distinguishes only success,
`ParseError::RelativeUrlWithoutBase`, and every other error. -/
inductive ParseOutcome where
  | ok (u : Url)
  | relativeUrlWithoutBase
  | otherError
deriving DecidableEq, Repr

/-- The `Page` struct. `U` is the URL type: the concrete `Url` model for the
filter theorems, or an abstract URL type for the frontier theorems.
`headers` models the `BTreeMap<String, String>` as its sorted entry list. -/
structure Page (U : Type) where
  url : U
  document : String
  headers : List (String × String)
  urls : List U
  jid : String

/-- `Page::url_eq`: `self.url == *url`. -/
def Page.url_eq (p : Page Url) (u : Url) : Bool :=
  p.url == u

/-- `Page::domain_eq`: `self.url.domain() == url.domain()`. -/
def Page.domain_eq (p : Page Url) (u : Url) : Bool :=
  p.url.domain == u.domain

/-- `Page::parsed_url`, parameterized by the `url` crate's parser `parse` and
resolver `join`. The source unwraps the result of `self.url.join(url)`
(`.unwrap()`); following the spec, which states the resolution always
succeeds for a well-formed base, `join` is modelled as total. -/
def Page.parsed_url (parse : String → ParseOutcome) (join : Url → String → Url)
    (p : Page Url) (url : String) : Option Url :=
  match parse url with
  | ParseOutcome.ok u => some u
  | ParseOutcome.relativeUrlWithoutBase => some (join p.url url)
  | ParseOutcome.otherError => none

/-- `Page::parsed_url_without_fragment`: parse, then strip the fragment. -/
def Page.parsed_url_without_fragment (parse : String → ParseOutcome)
    (join : Url → String → Url) (p : Page Url) (url : String) : Option Url :=
  match p.parsed_url parse join url with
  | some u => some (u.set_fragment none)
  | none => none

/-- `Page::can_enqueue`: the link filter. Parses and strips the candidate,
then accepts it iff its scheme is `http` or `https`, it differs from the
page's URL, and its domain equals the page's domain. -/
def Page.can_enqueue (parse : String → ParseOutcome) (join : Url → String → Url)
    (p : Page Url) (url : String) : Option Url :=
  match p.parsed_url_without_fragment parse join url with
  | some u =>
    match u.scheme with
    | "http" => if !p.url_eq u && p.domain_eq u then some u else none
    | "https" => if !p.url_eq u && p.domain_eq u then some u else none
    | _ => none
  | none => none

/-- Model of `rustc_serialize::json::Json`: the JSON values the serializer
produces. -/
inductive Json where
  | null
  | bool (b : Bool)
  | int (n : Int)
  | str (s : String)
  | arr (items : List Json)
  | obj (entries : List (String × Json))

/-- Insertion into a `BTreeMap<String, _>` modelled as a sorted entry list:
keeps entries strictly sorted by key, replacing the value on an existing
key. -/
def btreeInsert {α : Type} (k : String) (v : α) : List (String × α) → List (String × α)
  | [] => [(k, v)]
  | (k2, v2) :: rest =>
    if k < k2 then (k, v) :: (k2, v2) :: rest
    else if k = k2 then (k, v) :: rest
    else (k2, v2) :: btreeInsert k v rest

/-- `BTreeMap<String, String>::to_json`: a JSON object with one member per
entry, in the map's (sorted) order. -/
def headersToJson (hs : List (String × String)) : Json :=
  Json.obj (hs.map (fun kv => (kv.1, Json.str kv.2)))

/-- `impl ToJson for Page`, parameterized by the URL serializer `ser`
(`Url::to_string`) and the two clock reads `t1`, `t2` (the two `now_utc()`
calls, in source order: `created_at` first, `enqueued_at` second). -/
def Page.to_json {U : Type} (ser : U → String) (t1 t2 : Int) (p : Page U) : Json :=
  let object : List (String × Json) := []
  let object := btreeInsert "url" (Json.str (ser p.url)) object
  let object := btreeInsert "document" (Json.str p.document) object
  let object := btreeInsert "headers" (headersToJson p.headers) object
  let args : List Json := [Json.obj object]
  let root : List (String × Json) := []
  let root := btreeInsert "class" (Json.str "Maman") root
  let root := btreeInsert "retry" (Json.bool true) root
  let root := btreeInsert "args" (Json.arr args) root
  let root := btreeInsert "jid" (Json.str p.jid) root
  let root := btreeInsert "created_at" (Json.int t1) root
  let root := btreeInsert "enqueued_at" (Json.int t2) root
  Json.obj root

/-- The 62-character alphanumeric charset of the random generator's
`gen_ascii_chars` (rand 0.3): uppercase, lowercase, digits. -/
def genAsciiCharset : List Char :=
  "ABCDEFGHIJKLMNOPQRSTUVWXYZabcdefghijklmnopqrstuvwxyz0123456789".toList

/-- One character of `gen_ascii_chars`, given one draw `n` of the underlying
random source: an index into the 62-character charset. -/
def genAsciiChar (n : Nat) : Char :=
  genAsciiCharset.getD (n % 62) 'A'

/-- `thread_rng().gen_ascii_chars().take(24).collect::<String>()`: the job id,
given the random source `rng` (`rng i` is the `i`-th draw). -/
def genJid (rng : Nat → Nat) : String :=
  String.mk ((List.range 24).map (fun i => genAsciiChar (rng i)))

/-- `Page::new`: builds a page with an empty outbound-link list and a fresh
job id drawn from `rng`. -/
def Page.new {U : Type} (rng : Nat → Nat) (url : U) (document : String)
    (headers : List (String × String)) : Page U :=
  { url := url, document := document, headers := headers, urls := [], jid := genJid rng }

/-- The header loop of `Spider::read_response`: inserts each response header
into a `BTreeMap` under its ASCII-lower-cased name. -/
def buildHeaders (hs : List (String × String)) : List (String × String) :=
  hs.foldl (fun m kv => btreeInsert kv.1.toLower kv.2 m) []

/-- The `Spider` struct's state: both URL `Vec`s are modelled as lists in
`Vec` order (push appends at the end, `pop` removes the last element).
`log` records the lines printed on publish failure. -/
structure SpiderState (U : Type) where
  base_url : String
  visited_urls : List U
  unvisited_urls : List U
  env : String
  redis_queue_name : String
  log : List String

/-- `Spider::new`, with the `MAMAN_ENV` environment variable read (defaulting
to `"development"`) passed in as `maman_env`. -/
def Spider.new {U : Type} (base_url : String) (maman_env : String) : SpiderState U :=
  { base_url := base_url, visited_urls := [], unvisited_urls := [],
    env := maman_env, redis_queue_name := maman_env ++ ":queue:maman", log := [] }

/-- The crawler's external collaborators, over URL type `U` and HTTP-response
type `R`: `load_url` the HTTP client, `des`/`ser` the `url` crate's
`Url::parse`/`Url::to_string` on page URLs, `headersOf`/`readBody` the
response's header iteration and body read (which fails on non-UTF-8 bodies),
`extract` the html5ever tokenizer pipeline feeding `can_enqueue` (the links
collected into `page.urls` by `read_page`), `rng` the random source, and
`publish` the Redis client (`send_to_redis`). -/
structure CrawlEnv (U : Type) (R : Type) where
  load_url : String → Option R
  des : String → Option U
  ser : U → String
  headersOf : R → List (String × String)
  readBody : R → Option String
  extract : U → String → List U
  rng : Nat → Nat
  publish : Page U → Except String Unit

/-- `Spider::is_visited`: linear membership scan of the visited list. -/
def is_visited {U : Type} [DecidableEq U] (s : SpiderState U) (url : U) : Bool :=
  s.visited_urls.contains url

/-- `Spider::read_response`: parse the page URL; on success, collect the
lower-cased headers, read the body, build the page and run link extraction
over the document; `none` when the URL does not parse or the body cannot be
read as text. -/
def read_response {U R : Type} (env : CrawlEnv U R) (page_url : String) (r : R) :
    Option (Page U) :=
  match env.des page_url with
  | some u =>
    let headers := buildHeaders (env.headersOf r)
    match env.readBody r with
    | some document =>
      let page := Page.new env.rng u document headers
      some { page with urls := env.extract u document }
    | none => none
  | none => none

/-- `Spider::visit_page`: append the page's URL to `visited_urls`, append
each outbound link to `unvisited_urls`, then publish; a publish failure is
only logged. -/
def visit_page {U R : Type} (env : CrawlEnv U R) (s : SpiderState U) (page : Page U) :
    SpiderState U :=
  let s1 := { s with visited_urls := s.visited_urls ++ [page.url] }
  let s2 := { s1 with unvisited_urls := s1.unvisited_urls ++ page.urls }
  match env.publish page with
  | Except.error e => { s2 with log := s2.log ++ [e] }
  | Except.ok _ => s2

/-- `Spider::visit`: visit the page when the response reads, otherwise leave
the state unchanged. -/
def visit {U R : Type} (env : CrawlEnv U R) (s : SpiderState U) (page_url : String)
    (r : R) : SpiderState U :=
  match read_response env page_url r with
  | some page => visit_page env s page
  | none => s

/-- The body of one iteration of `Spider::crawl`'s `while let` loop, after
`url` has been popped from `unvisited_urls`: skip it when already visited,
otherwise fetch its serialized form and visit the response if the fetch
succeeds. -/
def crawl_step {U R : Type} [DecidableEq U] (env : CrawlEnv U R) (s : SpiderState U)
    (url : U) : SpiderState U :=
  let s2 : SpiderState U := { s with unvisited_urls := s.unvisited_urls.dropLast }
  if is_visited s2 url then s2
  else
    match env.load_url (env.ser url) with
    | some r => visit env s2 (env.ser url) r
    | none => s2

/-- `Spider::crawl`'s `while let Some(url) = self.unvisited_urls.pop()` loop,
made total with a fuel parameter: with fuel left, pop the last URL of
`unvisited_urls` (exiting when the stack is empty) and run one iteration. -/
def crawl_loop {U R : Type} [DecidableEq U] (env : CrawlEnv U R) :
    Nat → SpiderState U → SpiderState U
  | 0, s => s
  | Nat.succ fuel, s =>
    match s.unvisited_urls.getLast? with
    | none => s
    | some url => crawl_loop env fuel (crawl_step env s url)

/-- `Spider::crawl`: fetch the base URL; on failure stop with nothing
visited; on success visit the seed response, then run the frontier loop. -/
def crawl {U R : Type} [DecidableEq U] (env : CrawlEnv U R) (fuel : Nat)
    (s : SpiderState U) : SpiderState U :=
  match env.load_url s.base_url with
  | some r => crawl_loop env fuel (visit env s s.base_url r)
  | none => s

/-- The fetch-and-extract pipeline for one URL, as `crawl` runs it: serialize
the URL, fetch it, read the body, extract the links. `some links` exactly
when every step succeeds. -/
def fetchLinks {U R : Type} (env : CrawlEnv U R) (u : U) : Option (List U) :=
  match env.load_url (env.ser u) with
  | some r =>
    match env.readBody r with
    | some d => some (env.extract u d)
    | none => none
  | none => none

/-- The URLs reachable from `seed` by following outbound links. -/
inductive Reachable {U : Type} (links : U → List U) (seed : U) : U → Prop where
  | seed : Reachable links seed seed
  | step {u v : U} : Reachable links seed u → v ∈ links u → Reachable links seed v

/-- Loop invariant of `Spider::crawl` for a fetcher with link map `links`:
the visited list is duplicate-free, contains the seed, both lists hold only
reachable URLs, and every link out of a visited URL is either visited or
still pending on the stack. -/
structure CrawlInv {U : Type} (links : U → List U) (seed : U) (s : SpiderState U) :
    Prop where
  nodup : s.visited_urls.Nodup
  seed_mem : seed ∈ s.visited_urls
  vis_reach : ∀ u ∈ s.visited_urls, Reachable links seed u
  unvis_reach : ∀ u ∈ s.unvisited_urls, Reachable links seed u
  closed : ∀ u ∈ s.visited_urls, ∀ v ∈ links u, v ∈ s.visited_urls ∨ v ∈ s.unvisited_urls

/-- An upper bound on the out-degree of the link map over the universe. -/
def maxOut {U : Type} (links : U → List U) (univ : List U) : Nat :=
  (univ.map (fun u => (links u).length)).foldr max 0

/-- Termination measure of the crawl loop: URLs of the universe not yet
visited, weighted by the maximal out-degree, plus the stack size. -/
def crawlMeasure {U : Type} [DecidableEq U] (links : U → List U) (univ : List U)
    (s : SpiderState U) : Nat :=
  (univ.filter (fun u => decide (u ∉ s.visited_urls))).length * (maxOut links univ + 1)
    + s.unvisited_urls.length

/-- Page URL for the C1 witness scenario: `http://a.com/`. -/
def wPageUrl : Url :=
  { scheme := "http", host := some (Host.domain "a.com"), port := none,
    path := "/", query := none, fragment := none }

/-- Candidate URL for the C1 witness scenario: `http://a.com/x`. -/
def wCandUrl : Url :=
  { scheme := "http", host := some (Host.domain "a.com"), port := none,
    path := "/x", query := none, fragment := none }

/-- The page fetched from `wPageUrl` in the C1 witness scenario. -/
def wPage : Page Url :=
  { url := wPageUrl, document := "", headers := [], urls := [], jid := "" }

/-- Parser for the C1 witness scenario. -/
def wParse : String → ParseOutcome := fun s =>
  if s = "http://a.com/x" then ParseOutcome.ok wCandUrl
  else ParseOutcome.otherError

/-- Resolver for the C1 witness scenario (never reached). -/
def wJoin : Url → String → Url := fun u _ => u

/-- Page URL used in the C9 scenario: an `http` URL whose host is the IP
address `1.2.3.4`. -/
def ipPageUrl : Url :=
  { scheme := "http", host := some (Host.ipv4 1 2 3 4), port := none,
    path := "/", query := none, fragment := none }

/-- Candidate URL used in the C9 scenario: an `http` URL whose host is the
different IP address `5.6.7.8`. -/
def ipCandidateUrl : Url :=
  { scheme := "http", host := some (Host.ipv4 5 6 7 8), port := none,
    path := "/x", query := none, fragment := none }

/-- The page fetched from `ipPageUrl` in the C9 scenario. -/
def ipPage : Page Url :=
  { url := ipPageUrl, document := "", headers := [], urls := [], jid := "" }

/-- Parser for the C9 scenario: recognizes the candidate's absolute URL. -/
def ipParse : String → ParseOutcome := fun s =>
  if s = "http://5.6.7.8/x" then ParseOutcome.ok ipCandidateUrl
  else ParseOutcome.otherError

/-- Resolver for the C9 scenario (never reached by the candidate). -/
def ipJoin : Url → String → Url := fun u _ => u

/-- Parser for the C4 witness scenario: every input is a relative reference. -/
def relParse : String → ParseOutcome := fun _ => ParseOutcome.relativeUrlWithoutBase

/-- Resolver for the C4 witness scenario: replaces the base URL's path. -/
def relJoin : Url → String → Url := fun u s => { u with path := s }

/-- A one-URL crawl environment over `U := Unit`, used to instantiate the
frontier theorems: fetching always succeeds and the single page has no
outbound links. -/
def unitEnv : CrawlEnv Unit Unit :=
  { load_url := fun _ => some (), des := fun _ => some (), ser := fun _ => "u",
    headersOf := fun _ => [], readBody := fun _ => some "",
    extract := fun _ _ => [], rng := id, publish := fun _ => Except.ok () }

/-- A crawl environment whose URL deserializer rejects every string, used to
instantiate the failed-fetch theorem. -/
def failEnv : CrawlEnv Nat Unit :=
  { load_url := fun _ => some (), des := fun _ => none, ser := fun n => toString n,
    headersOf := fun _ => [], readBody := fun _ => some "",
    extract := fun _ _ => [], rng := id, publish := fun _ => Except.ok () }

/-- C8: fragment stripping is idempotent: stripping the fragment of an
already fragment-stripped URL yields the same URL. -/
theorem strip_fragment_idempotent (u : Url) :
    u.strip_fragment.strip_fragment = u.strip_fragment := rfl

/-- C1: for every page URL and candidate URL `c` that parses and is already
fragment-stripped, the link filter accepts `c` (returns `some c`) iff `c`'s
scheme is exactly `http` or `https`, `c` differs from the page URL, and `c`'s
domain equals the page URL's domain; otherwise it returns `none` (the
candidate is dropped, never an error). -/
theorem can_enqueue_accepts_iff (parse : String → ParseOutcome)
    (join : Url → String → Url) (p : Page Url) (raw : String) (c : Url)
    (hp : parse raw = ParseOutcome.ok c) (hf : c.fragment = none) :
    p.can_enqueue parse join raw =
      if (c.scheme = "http" ∨ c.scheme = "https") ∧ c ≠ p.url ∧ c.domain = p.url.domain
      then some c else none := by
  have hc : c.set_fragment none = c := by
    cases c
    simp_all [Url.set_fragment]
  unfold Page.can_enqueue Page.parsed_url_without_fragment Page.parsed_url
  rw [hp]
  simp only [hc]
  split
  · rename_i hs
    simp only [Page.url_eq, Page.domain_eq, Bool.and_eq_true, Bool.not_eq_eq_eq_not,
      Bool.not_true, beq_eq_false_iff_ne, ne_eq, beq_iff_eq]
    by_cases h2 : c = p.url <;> by_cases h3 : c.domain = p.url.domain <;>
      simp [h2, h3, hs, eq_comm]
  · rename_i hs
    simp only [Page.url_eq, Page.domain_eq, Bool.and_eq_true, Bool.not_eq_eq_eq_not,
      Bool.not_true, beq_eq_false_iff_ne, ne_eq, beq_iff_eq]
    by_cases h2 : c = p.url <;> by_cases h3 : c.domain = p.url.domain <;>
      simp [h2, h3, hs, eq_comm]
  · rename_i hs1 hs2
    have hcond : ¬((c.scheme = "http" ∨ c.scheme = "https") ∧
        c ≠ p.url ∧ c.domain = p.url.domain) := by
      rintro ⟨h | h, -, -⟩
      · exact hs1 h
      · exact hs2 h
    rw [if_neg hcond]

/-- Witness for C1 at a concrete input: page `http://a.com/`, candidate
`http://a.com/x` is same-domain and not self-referential, so it is accepted. -/
theorem can_enqueue_accepts_iff_witness :
    wPage.can_enqueue wParse wJoin "http://a.com/x" = some wCandUrl := by
  rw [can_enqueue_accepts_iff wParse wJoin wPage "http://a.com/x" wCandUrl
    (by decide) (by decide)]
  decide

/-- C9: when both the page URL and the candidate URL have IP hosts, `domain()`
is absent for both, the domain-equality check compares two absent domains and
succeeds, and a candidate on a different IP host passes the link filter and is
enqueued. -/
theorem can_enqueue_different_ip_hosts :
    ipPageUrl.domain = none ∧ ipCandidateUrl.domain = none ∧
    ipPage.domain_eq ipCandidateUrl = true ∧
    ipPageUrl.host ≠ ipCandidateUrl.host ∧
    ipPage.can_enqueue ipParse ipJoin "http://5.6.7.8/x" = some ipCandidateUrl := by
  refine ⟨rfl, rfl, rfl, by decide, ?_⟩
  rfl

/-- C4: URL resolution returns the candidate parsed as-is when it is an
absolute URL; the resolution against the base when parsing fails solely
because the candidate is a relative reference without a base; and no URL for
any other parse failure. -/
theorem parsed_url_cases (parse : String → ParseOutcome) (join : Url → String → Url)
    (p : Page Url) (raw : String) :
    (∀ u, parse raw = ParseOutcome.ok u → p.parsed_url parse join raw = some u) ∧
    (parse raw = ParseOutcome.relativeUrlWithoutBase →
      p.parsed_url parse join raw = some (join p.url raw)) ∧
    (parse raw = ParseOutcome.otherError → p.parsed_url parse join raw = none) := by
  refine ⟨fun u h => ?_, fun h => ?_, fun h => ?_⟩ <;> simp [Page.parsed_url, h]

/-- Witness for C4 at a concrete input: a relative reference is resolved
against the page's URL. -/
theorem parsed_url_cases_witness :
    wPage.parsed_url relParse relJoin "/y" = some (relJoin wPage.url "/y") :=
  (parsed_url_cases relParse relJoin wPage "/y").2.1 rfl

/-- C5: serialization of a page yields a JSON object with exactly the fields
`args` (a one-element list holding an object with `document`, `headers` and
`url`), `class` (the literal `"Maman"`), `created_at` (the first clock read),
`enqueued_at` (the second, independent clock read), `jid` (the page's job id)
and `retry` (`true`). -/
theorem to_json_shape {U : Type} (ser : U → String) (p : Page U) (t1 t2 : Int) :
    p.to_json ser t1 t2 =
      Json.obj
        [("args", Json.arr [Json.obj
            [("document", Json.str p.document),
             ("headers", headersToJson p.headers),
             ("url", Json.str (ser p.url))]]),
         ("class", Json.str "Maman"),
         ("created_at", Json.int t1),
         ("enqueued_at", Json.int t2),
         ("jid", Json.str p.jid),
         ("retry", Json.bool true)] := by
  with_unfolding_all rfl

/-- Every character `gen_ascii_chars` produces is printable ASCII. -/
theorem genAsciiChar_printable (n : Nat) :
    33 ≤ (genAsciiChar n).toNat ∧ (genAsciiChar n).toNat ≤ 126 := by
  have h : n % 62 < 62 := Nat.mod_lt n (by decide)
  have hall : ∀ k, k < 62 →
      33 ≤ (genAsciiCharset.getD k 'A').toNat ∧ (genAsciiCharset.getD k 'A').toNat ≤ 126 := by
    decide
  exact hall _ h

/-- Every entry of `btreeInsert k v m` either has key `k` or was in `m`. -/
theorem btreeInsert_keys {α : Type} (k : String) (v : α) (m : List (String × α)) :
    ∀ kv ∈ btreeInsert k v m, kv.1 = k ∨ kv ∈ m := by
  induction m with
  | nil =>
    intro kv hkv
    simp only [btreeInsert, List.mem_singleton] at hkv
    left
    rw [hkv]
  | cons hd tl ih =>
    intro kv hkv
    simp only [btreeInsert] at hkv
    split at hkv
    · rw [List.mem_cons] at hkv
      rcases hkv with h | h
      · left; rw [h]
      · right; exact h
    · split at hkv
      · rw [List.mem_cons] at hkv
        rcases hkv with h | h
        · left; rw [h]
        · right; exact List.mem_cons_of_mem _ h
      · rw [List.mem_cons] at hkv
        rcases hkv with h | h
        · right; rw [h]; exact List.mem_cons_self _ _
        · rcases ih kv h with h2 | h2
          · left; exact h2
          · right; exact List.mem_cons_of_mem _ h2

/-- Key provenance through the header-building fold. -/
theorem buildHeaders_fold_keys (hs : List (String × String)) (P : String → Prop) :
    ∀ acc : List (String × String), (∀ kv ∈ acc, P kv.1) →
      (∀ kv ∈ hs, P kv.1.toLower) →
      ∀ kv ∈ hs.foldl (fun m kv => btreeInsert kv.1.toLower kv.2 m) acc, P kv.1 := by
  induction hs with
  | nil =>
    intro acc hacc _ kv hkv
    exact hacc kv hkv
  | cons hd tl ih =>
    intro acc hacc hhs kv hkv
    refine ih _ ?_ (fun kv2 h2 => hhs kv2 (List.mem_cons_of_mem _ h2)) kv hkv
    intro kv2 h2
    rcases btreeInsert_keys _ _ _ kv2 h2 with h | h
    · rw [h]
      exact hhs hd (List.mem_cons_self _ _)
    · exact hacc kv2 h

/-- Every key stored by `read_response`'s header loop is the lower-casing of
one of the response's header names. -/
theorem buildHeaders_keys (hs : List (String × String)) :
    ∀ kv ∈ buildHeaders hs, kv.1 ∈ hs.map (fun h => h.1.toLower) := by
  refine buildHeaders_fold_keys hs (fun k => k ∈ hs.map (fun h => h.1.toLower)) [] ?_ ?_
  · intro kv hkv
    simp at hkv
  · intro kv hkv
    exact List.mem_map_of_mem _ hkv

/-- C7: page construction always succeeds (it is total) and yields a page
whose header mapping holds only lower-cased header names, whose job id is 24
printable-ASCII characters drawn from the random source, and whose
outbound-link list is empty. -/
theorem page_new_spec {U : Type} (rng : Nat → Nat) (url : U) (document : String)
    (raw_headers : List (String × String)) :
    (Page.new rng url document (buildHeaders raw_headers)).urls = [] ∧
    (Page.new rng url document (buildHeaders raw_headers)).url = url ∧
    (Page.new rng url document (buildHeaders raw_headers)).document = document ∧
    (Page.new rng url document (buildHeaders raw_headers)).jid.length = 24 ∧
    (∀ c ∈ (Page.new rng url document (buildHeaders raw_headers)).jid.data,
      33 ≤ c.toNat ∧ c.toNat ≤ 126) ∧
    (∀ kv ∈ (Page.new rng url document (buildHeaders raw_headers)).headers,
      kv.1 ∈ raw_headers.map (fun h => h.1.toLower)) := by
  refine ⟨rfl, rfl, rfl, ?_, ?_, ?_⟩
  · simp [Page.new, genJid, String.length]
  · intro c hc
    simp only [Page.new, genJid, String.mk, List.mem_map] at hc
    obtain ⟨i, _, hi⟩ := hc
    rw [← hi]
    exact genAsciiChar_printable (rng i)
  · intro kv hkv
    exact buildHeaders_keys raw_headers kv hkv

/-- Witness for C7 at a concrete input: a page built from one header. -/
theorem page_new_spec_witness :
    (Page.new id (0 : Nat) "body" (buildHeaders [("X-Foo", "1")])).urls = [] ∧
    (Page.new id (0 : Nat) "body" (buildHeaders [("X-Foo", "1")])).jid.length = 24 :=
  ⟨(page_new_spec id 0 "body" [("X-Foo", "1")]).1,
   (page_new_spec id 0 "body" [("X-Foo", "1")]).2.2.2.1⟩

/-- `visit_page` appends exactly the page's URL to the visited list, whatever
the publish outcome. -/
theorem visit_page_visited {U R : Type} (env : CrawlEnv U R) (s : SpiderState U)
    (page : Page U) :
    (visit_page env s page).visited_urls = s.visited_urls ++ [page.url] := by
  unfold visit_page
  split <;> rfl

/-- `visit_page` appends exactly the page's outbound links to the unvisited
stack, whatever the publish outcome. -/
theorem visit_page_unvisited {U R : Type} (env : CrawlEnv U R) (s : SpiderState U)
    (page : Page U) :
    (visit_page env s page).unvisited_urls = s.unvisited_urls ++ page.urls := by
  unfold visit_page
  split <;> rfl

/-- C6: processing a page appends its URL to the visited list and its
outbound links to the unvisited stack regardless of the publish outcome; a
publish failure neither aborts nor removes the URL from the visited list, it
is only logged. -/
theorem visit_page_publish_failure_harmless {U R : Type} (env : CrawlEnv U R)
    (s : SpiderState U) (page : Page U) :
    (visit_page env s page).visited_urls = s.visited_urls ++ [page.url] ∧
    (visit_page env s page).unvisited_urls = s.unvisited_urls ++ page.urls ∧
    (visit_page env s page).base_url = s.base_url ∧
    (visit_page env s page).log =
      (match env.publish page with
       | Except.error e => s.log ++ [e]
       | Except.ok _ => s.log) := by
  unfold visit_page
  cases env.publish page <;> simp

/-- C10: when the page URL does not parse or the body cannot be read as
text, `read_response` returns no page and `visit` leaves the spider state
(visited list, unvisited stack, log, everything) unchanged. -/
theorem read_response_failure_unchanged {U R : Type} (env : CrawlEnv U R)
    (s : SpiderState U) (page_url : String) (r : R)
    (h : env.des page_url = none ∨ env.readBody r = none) :
    read_response env page_url r = none ∧ visit env s page_url r = s := by
  have hrr : read_response env page_url r = none := by
    unfold read_response
    rcases h with h | h
    · rw [h]
    · cases hdes : env.des page_url
      · rfl
      · rw [h]
  refine ⟨hrr, ?_⟩
  unfold visit
  rw [hrr]

/-- Witness for C10 at a concrete input: a URL string the parser rejects
leaves the freshly created spider unchanged. -/
theorem read_response_failure_unchanged_witness :
    read_response failEnv "nope" () = none ∧
    visit failEnv (Spider.new "http://x/" "development") "nope" () =
      Spider.new "http://x/" "development" :=
  read_response_failure_unchanged failEnv (Spider.new "http://x/" "development")
    "nope" () (Or.inl rfl)

/-- The crawl loop with no fuel returns the state unchanged. -/
theorem crawl_loop_zero {U R : Type} [DecidableEq U] (env : CrawlEnv U R)
    (s : SpiderState U) : crawl_loop env 0 s = s := rfl

/-- The crawl loop exits as soon as the unvisited stack is empty. -/
theorem crawl_loop_succ_empty {U R : Type} [DecidableEq U] (env : CrawlEnv U R)
    (fuel : Nat) (s : SpiderState U) (h : s.unvisited_urls.getLast? = none) :
    crawl_loop env (fuel + 1) s = s := by
  unfold crawl_loop
  rw [h]

/-- With fuel left and a non-empty stack, the crawl loop runs one iteration
on the popped URL and recurses. -/
theorem crawl_loop_succ_pop {U R : Type} [DecidableEq U] (env : CrawlEnv U R)
    (fuel : Nat) (s : SpiderState U) (url : U)
    (h : s.unvisited_urls.getLast? = some url) :
    crawl_loop env (fuel + 1) s = crawl_loop env fuel (crawl_step env s url) := by
  conv_lhs => rw [crawl_loop]
  rw [h]

/-- `visit` either leaves the visited list unchanged (failed read) or appends
exactly the parse of the fetched URL string. -/
theorem visit_visited_cases {U R : Type} (env : CrawlEnv U R) (s : SpiderState U)
    (page_url : String) (r : R) :
    (visit env s page_url r).visited_urls = s.visited_urls ∨
    ∃ u, env.des page_url = some u ∧
      (visit env s page_url r).visited_urls = s.visited_urls ++ [u] := by
  unfold visit read_response
  cases hdes : env.des page_url
  · left
    rfl
  · cases hbody : env.readBody r
    · left
      rfl
    · right
      refine ⟨_, rfl, ?_⟩
      rw [visit_page_visited]
      rfl

/-- One iteration of the crawl loop preserves the no-duplicates property of
the visited list: the popped URL is checked against the visited list before
any append, and the appended URL is the parse of the popped URL's serialized
form (equal to the popped URL by the parser round-trip). -/
theorem crawl_step_nodup {U R : Type} [DecidableEq U] (env : CrawlEnv U R)
    (roundtrip : ∀ u : U, env.des (env.ser u) = some u) (s : SpiderState U) (url : U)
    (h : s.visited_urls.Nodup) : (crawl_step env s url).visited_urls.Nodup := by
  unfold crawl_step
  by_cases hv : is_visited { s with unvisited_urls := s.unvisited_urls.dropLast } url
  · rw [if_pos hv]
    exact h
  · rw [if_neg hv]
    cases hload : env.load_url (env.ser url)
    · exact h
    · rename_i r
      rcases visit_visited_cases env { s with unvisited_urls := s.unvisited_urls.dropLast }
        (env.ser url) r with h2 | ⟨u, hdes, h2⟩
      · rw [h2]
        exact h
      · rw [roundtrip url] at hdes
        injection hdes with hu
        subst hu
        rw [h2]
        have hmem : url ∉ s.visited_urls := by
          simpa [is_visited, List.elem_iff] using hv
        rw [List.nodup_append]
        refine ⟨h, List.nodup_singleton url, ?_⟩
        intro a ha ha2
        rw [List.mem_singleton] at ha2
        subst ha2
        exact hmem ha

/-- The crawl loop preserves the no-duplicates property of the visited list,
for any amount of fuel. -/
theorem crawl_loop_nodup {U R : Type} [DecidableEq U] (env : CrawlEnv U R)
    (roundtrip : ∀ u : U, env.des (env.ser u) = some u) :
    ∀ (fuel : Nat) (s : SpiderState U), s.visited_urls.Nodup →
      (crawl_loop env fuel s).visited_urls.Nodup := by
  intro fuel
  induction fuel with
  | zero =>
    intro s h
    exact h
  | succ n ih =>
    intro s h
    cases hlast : s.unvisited_urls.getLast? with
    | none =>
      rw [crawl_loop_succ_empty env n s hlast]
      exact h
    | some url =>
      rw [crawl_loop_succ_pop env n s url hlast]
      exact ih _ (crawl_step_nodup env roundtrip s url h)

/-- C2: throughout any run of `crawl` from a fresh spider (any fuel bound,
hence any prefix of the run), a URL already in the visited list is never
appended again: the final visited list is duplicate-free. Assumes the `url`
crate's parse/to-string round-trip. -/
theorem crawl_visited_nodup {U R : Type} [DecidableEq U] (env : CrawlEnv U R)
    (roundtrip : ∀ u : U, env.des (env.ser u) = some u)
    (fuel : Nat) (b menv : String) :
    (crawl env fuel (Spider.new b menv : SpiderState U)).visited_urls.Nodup := by
  unfold crawl
  cases hload : env.load_url (Spider.new b menv : SpiderState U).base_url
  · exact List.nodup_nil
  · rename_i r
    apply crawl_loop_nodup env roundtrip
    rcases visit_visited_cases env (Spider.new b menv)
      (Spider.new b menv : SpiderState U).base_url r with h | ⟨u, _, h⟩
    · rw [h]
      exact List.nodup_nil
    · rw [h]
      exact List.nodup_singleton u

/-- Witness for C2 at a concrete input: the one-URL environment with five
units of fuel yields a duplicate-free visited list. -/
theorem crawl_visited_nodup_witness :
    (crawl unitEnv 5 (Spider.new "u" "development")).visited_urls.Nodup :=
  crawl_visited_nodup unitEnv (fun _ => rfl) 5 "u" "development"

/-- A list whose last element is `a` is its `dropLast` followed by `a`. -/
theorem getLast?_decomp {α : Type} (l : List α) (a : α) (h : l.getLast? = some a) :
    l = l.dropLast ++ [a] :=
  (List.dropLast_append_getLast? a (by rw [Option.mem_def]; exact h)).symm

/-- Appending a fresh element keeps a list duplicate-free. -/
theorem nodup_append_singleton {α : Type} (l : List α) (a : α) (ha : a ∉ l)
    (hl : l.Nodup) : (l ++ [a]).Nodup := by
  rw [List.nodup_append]
  refine ⟨hl, List.nodup_singleton a, ?_⟩
  intro x hx hx2
  rw [List.mem_singleton] at hx2
  subst hx2
  exact ha hx

/-- Every member of a list of naturals is bounded by its `foldr max 0`. -/
theorem le_foldr_max (l : List Nat) (x : Nat) (hx : x ∈ l) : x ≤ l.foldr max 0 := by
  induction l with
  | nil => cases hx
  | cons a t ih =>
    rw [List.mem_cons] at hx
    rw [List.foldr_cons]
    rcases hx with h | h
    · rw [h]
      exact Nat.le_max_left _ _
    · exact Nat.le_trans (ih h) (Nat.le_max_right _ _)

/-- `maxOut` bounds the out-degree of every universe member. -/
theorem links_length_le_maxOut {U : Type} (links : U → List U) (univ : List U)
    (u : U) (hu : u ∈ univ) : (links u).length ≤ maxOut links univ :=
  le_foldr_max _ _ (List.mem_map_of_mem _ hu)

/-- Reachable URLs stay inside a universe that contains the seed and is
closed under the link map. -/
theorem reachable_mem_univ {U : Type} (links : U → List U) (seed : U) (univ : List U)
    (hseed : seed ∈ univ) (hclosed : ∀ u ∈ univ, ∀ v ∈ links u, v ∈ univ) :
    ∀ u : U, Reachable links seed u → u ∈ univ := by
  intro u h
  induction h with
  | seed => exact hseed
  | step hu hv ih => exact hclosed _ ih _ hv

/-- Marking a fresh universe member visited lowers the unvisited count of the
universe by exactly one. -/
theorem filter_count_drop {U : Type} [DecidableEq U] (V : List U) (url : U) :
    ∀ univ : List U, univ.Nodup → url ∈ univ → url ∉ V →
      (univ.filter (fun u => decide (u ∉ V ++ [url]))).length + 1 =
      (univ.filter (fun u => decide (u ∉ V))).length := by
  intro univ
  induction univ with
  | nil =>
    intro _ hu _
    cases hu
  | cons a t ih =>
    intro hn hu hv
    rw [List.nodup_cons] at hn
    rw [List.mem_cons] at hu
    by_cases ha : a = url
    · subst ha
      rw [List.filter_cons_of_neg (by simp), List.filter_cons_of_pos (by simpa using hv)]
      have hsame : t.filter (fun u => decide (u ∉ V ++ [a])) =
          t.filter (fun u => decide (u ∉ V)) := by
        apply List.filter_congr
        intro u hu2
        have hne : u ≠ a := fun he => hn.1 (he ▸ hu2)
        rw [decide_eq_decide]
        simp [List.mem_append, hne]
      rw [hsame, List.length_cons]
    · have hu2 : url ∈ t := by
        rcases hu with h | h
        · exact absurd h.symm ha
        · exact h
      by_cases hm : a ∈ V
      · rw [List.filter_cons_of_neg (by simp [List.mem_append, hm]),
          List.filter_cons_of_neg (by simp [hm])]
        exact ih hn.2 hu2 hv
      · rw [List.filter_cons_of_pos (by simp [List.mem_append, hm, ha]),
          List.filter_cons_of_pos (by simp [hm])]
        rw [List.length_cons, List.length_cons]
        have := ih hn.2 hu2 hv
        omega

/-- The crawl loop is the identity on a state with an empty unvisited stack:
the loop runs exactly while the stack is non-empty. -/
theorem crawl_loop_of_empty {U R : Type} [DecidableEq U] (env : CrawlEnv U R) :
    ∀ (m : Nat) (s : SpiderState U), s.unvisited_urls = [] → crawl_loop env m s = s := by
  intro m s h
  cases m with
  | zero => rfl
  | succ n =>
    refine crawl_loop_succ_empty env n s ?_
    rw [h]
    rfl

/-- `read_response` on a URL that parses and a body that reads yields exactly
the page built from them, with the extracted links. -/
theorem read_response_some {U R : Type} (env : CrawlEnv U R) (page_url : String)
    (r : R) (u : U) (d : String)
    (hdes : env.des page_url = some u) (hbody : env.readBody r = some d) :
    read_response env page_url r =
      some { url := u, document := d, headers := buildHeaders (env.headersOf r),
             urls := env.extract u d, jid := genJid env.rng } := by
  unfold read_response
  rw [hdes, hbody]
  rfl

/-- `visit` on a readable response is `visit_page` on the page read. -/
theorem visit_eq_of_read {U R : Type} (env : CrawlEnv U R) (s : SpiderState U)
    (page_url : String) (r : R) (page : Page U)
    (h : read_response env page_url r = some page) :
    visit env s page_url r = visit_page env s page := by
  unfold visit
  rw [h]

/-- Inversion of the fetch pipeline: a successful `fetchLinks` yields a
response and a body whose extraction is the link list. -/
theorem fetchLinks_inv {U R : Type} (env : CrawlEnv U R) (u : U) (ls : List U)
    (h : fetchLinks env u = some ls) :
    ∃ r d, env.load_url (env.ser u) = some r ∧ env.readBody r = some d ∧
      env.extract u d = ls := by
  unfold fetchLinks at h
  cases hr : env.load_url (env.ser u) with
  | none =>
    rw [hr] at h
    cases h
  | some r =>
    rw [hr] at h
    have h2 : (match env.readBody r with
      | some d => some (env.extract u d)
      | none => none) = some ls := h
    cases hb : env.readBody r with
    | none =>
      rw [hb] at h2
      cases h2
    | some d =>
      rw [hb] at h2
      have h3 : some (env.extract u d) = some ls := h2
      injection h3 with h3
      exact ⟨r, d, rfl, hb, h3⟩

/-- When fetching `u` succeeds end to end with link list `links u`, `visit`
appends `u` to the visited list and `links u` to the unvisited stack. -/
theorem visit_fetch_links {U R : Type} (env : CrawlEnv U R) (links : U → List U)
    (roundtrip : ∀ u : U, env.des (env.ser u) = some u)
    (hfetch : ∀ u : U, fetchLinks env u = some (links u))
    (s : SpiderState U) (u : U) (r : R)
    (hr : env.load_url (env.ser u) = some r) :
    (visit env s (env.ser u) r).visited_urls = s.visited_urls ++ [u] ∧
    (visit env s (env.ser u) r).unvisited_urls = s.unvisited_urls ++ links u := by
  obtain ⟨r0, d, hr0, hb, hex⟩ := fetchLinks_inv env u (links u) (hfetch u)
  have hrr : r0 = r := by
    rw [hr0] at hr
    injection hr
  subst hrr
  rw [visit_eq_of_read env s (env.ser u) r0 _
    (read_response_some env _ r0 u d (roundtrip u) hb)]
  constructor
  · rw [visit_page_visited]
  · rw [visit_page_unvisited]
    show s.unvisited_urls ++ env.extract u d = s.unvisited_urls ++ links u
    rw [hex]

/-- Popping an already visited URL only shortens the stack. -/
theorem crawl_step_of_visited {U R : Type} [DecidableEq U] (env : CrawlEnv U R)
    (s : SpiderState U) (url : U) (h : url ∈ s.visited_urls) :
    crawl_step env s url = { s with unvisited_urls := s.unvisited_urls.dropLast } := by
  unfold crawl_step
  have hc : is_visited { s with unvisited_urls := s.unvisited_urls.dropLast } url = true := by
    simp only [is_visited]
    simpa [List.elem_iff] using h
  rw [if_pos hc]

/-- Popping an unvisited URL, when its fetch succeeds with link list
`links url`, appends it to the visited list and its links to the shortened
stack. -/
theorem crawl_step_of_unvisited {U R : Type} [DecidableEq U] (env : CrawlEnv U R)
    (links : U → List U)
    (roundtrip : ∀ u : U, env.des (env.ser u) = some u)
    (hfetch : ∀ u : U, fetchLinks env u = some (links u))
    (s : SpiderState U) (url : U) (h : url ∉ s.visited_urls) :
    (crawl_step env s url).visited_urls = s.visited_urls ++ [url] ∧
    (crawl_step env s url).unvisited_urls = s.unvisited_urls.dropLast ++ links url := by
  unfold crawl_step
  have hc : ¬(is_visited { s with unvisited_urls := s.unvisited_urls.dropLast } url = true) := by
    simp only [is_visited]
    simpa [List.elem_iff] using h
  rw [if_neg hc]
  cases hload : env.load_url (env.ser url) with
  | none =>
    exfalso
    have hf := hfetch url
    unfold fetchLinks at hf
    rw [hload] at hf
    cases hf
  | some r =>
    exact visit_fetch_links env links roundtrip hfetch
      { s with unvisited_urls := s.unvisited_urls.dropLast } url r hload

/-- Arithmetic core of the measure decrease: visiting one new URL pays for
all the links it pushes. -/
theorem measure_drop_arith (A B M d l : Nat) (hB : A + 1 = B) (hl : l ≤ M) :
    A * (M + 1) + (d + l) < B * (M + 1) + (d + 1) := by
  subst hB
  have h : (A + 1) * (M + 1) = A * (M + 1) + (M + 1) := by ring
  rw [h, Nat.add_assoc]
  exact Nat.add_lt_add_left (by omega) _

/-- One loop iteration preserves the crawl invariant and strictly decreases
the termination measure. -/
theorem crawl_step_inv {U R : Type} [DecidableEq U] (env : CrawlEnv U R)
    (links : U → List U) (seed : U) (univ : List U)
    (roundtrip : ∀ u : U, env.des (env.ser u) = some u)
    (hfetch : ∀ u : U, fetchLinks env u = some (links u))
    (hn : univ.Nodup) (hseedU : seed ∈ univ)
    (hclosedU : ∀ u ∈ univ, ∀ v ∈ links u, v ∈ univ)
    (s : SpiderState U) (url : U)
    (hlast : s.unvisited_urls.getLast? = some url)
    (hinv : CrawlInv links seed s) :
    CrawlInv links seed (crawl_step env s url) ∧
    crawlMeasure links univ (crawl_step env s url) < crawlMeasure links univ s := by
  have hdec := getLast?_decomp _ _ hlast
  have hurlmem : url ∈ s.unvisited_urls := by
    rw [hdec]
    exact List.mem_append_right _ (List.mem_singleton.mpr rfl)
  have hlen : s.unvisited_urls.length = s.unvisited_urls.dropLast.length + 1 := by
    conv_lhs => rw [hdec]
    rw [List.length_append]
    rfl
  by_cases hv : url ∈ s.visited_urls
  · rw [crawl_step_of_visited env s url hv]
    constructor
    · exact
        { nodup := hinv.nodup
          seed_mem := hinv.seed_mem
          vis_reach := hinv.vis_reach
          unvis_reach := fun u hu => hinv.unvis_reach u (by
            rw [hdec]
            exact List.mem_append_left _ hu)
          closed := fun u hu v hv2 => by
            rcases hinv.closed u hu v hv2 with h | h
            · exact Or.inl h
            · rw [hdec] at h
              rcases List.mem_append.mp h with h2 | h2
              · exact Or.inr h2
              · rw [List.mem_singleton] at h2
                subst h2
                exact Or.inl hv }
    · unfold crawlMeasure
      rw [hlen]
      exact Nat.add_lt_add_left (Nat.lt_succ_self _) _
  · obtain ⟨h1, h2⟩ := crawl_step_of_unvisited env links roundtrip hfetch s url hv
    have hreach : Reachable links seed url := hinv.unvis_reach url hurlmem
    have hmemU : url ∈ univ := reachable_mem_univ links seed univ hseedU hclosedU url hreach
    constructor
    · exact
        { nodup := by
            rw [h1]
            exact nodup_append_singleton _ _ hv hinv.nodup
          seed_mem := by
            rw [h1]
            exact List.mem_append_left _ hinv.seed_mem
          vis_reach := fun u hu => by
            rw [h1] at hu
            rcases List.mem_append.mp hu with h | h
            · exact hinv.vis_reach u h
            · rw [List.mem_singleton] at h
              subst h
              exact hreach
          unvis_reach := fun u hu => by
            rw [h2] at hu
            rcases List.mem_append.mp hu with h | h
            · exact hinv.unvis_reach u (by
                rw [hdec]
                exact List.mem_append_left _ h)
            · exact Reachable.step hreach h
          closed := fun u hu v hv2 => by
            rw [h1] at hu
            rcases List.mem_append.mp hu with h | h
            · rcases hinv.closed u h v hv2 with hc | hc
              · exact Or.inl (by
                  rw [h1]
                  exact List.mem_append_left _ hc)
              · rw [hdec] at hc
                rcases List.mem_append.mp hc with hc2 | hc2
                · exact Or.inr (by
                    rw [h2]
                    exact List.mem_append_left _ hc2)
                · rw [List.mem_singleton] at hc2
                  subst hc2
                  exact Or.inl (by
                    rw [h1]
                    exact List.mem_append_right _ (List.mem_singleton.mpr rfl))
            · rw [List.mem_singleton] at h
              subst h
              exact Or.inr (by
                rw [h2]
                exact List.mem_append_right _ hv2) }
    · have hcount := filter_count_drop s.visited_urls url univ hn hmemU hv
      have hlinks := links_length_le_maxOut links univ url hmemU
      unfold crawlMeasure
      rw [h1, h2, List.length_append, hlen]
      exact measure_drop_arith _ _ _ _ _ hcount hlinks

/-- Strong induction on the measure: with enough fuel the crawl loop empties
the stack, preserves the invariant, and extra fuel changes nothing. -/
theorem crawl_loop_dag {U R : Type} [DecidableEq U] (env : CrawlEnv U R)
    (links : U → List U) (seed : U) (univ : List U)
    (roundtrip : ∀ u : U, env.des (env.ser u) = some u)
    (hfetch : ∀ u : U, fetchLinks env u = some (links u))
    (hn : univ.Nodup) (hseedU : seed ∈ univ)
    (hclosedU : ∀ u ∈ univ, ∀ v ∈ links u, v ∈ univ) :
    ∀ (n : Nat) (s : SpiderState U), CrawlInv links seed s →
      crawlMeasure links univ s ≤ n →
      (∀ k : Nat, crawl_loop env (n + k) s = crawl_loop env n s) ∧
      (crawl_loop env n s).unvisited_urls = [] ∧
      CrawlInv links seed (crawl_loop env n s) := by
  intro n
  induction n with
  | zero =>
    intro s hinv hM
    have hemp : s.unvisited_urls = [] := by
      unfold crawlMeasure at hM
      have hlen0 : s.unvisited_urls.length = 0 := by omega
      exact List.length_eq_zero.mp hlen0
    refine ⟨?_, ?_, ?_⟩
    · intro k
      rw [crawl_loop_zero, Nat.zero_add, crawl_loop_of_empty env k s hemp]
    · rw [crawl_loop_zero]
      exact hemp
    · rw [crawl_loop_zero]
      exact hinv
  | succ n ih =>
    intro s hinv hM
    cases hlast : s.unvisited_urls.getLast? with
    | none =>
      have hemp : s.unvisited_urls = [] := List.getLast?_eq_none_iff.mp hlast
      refine ⟨?_, ?_, ?_⟩
      · intro k
        rw [crawl_loop_of_empty env (n + 1 + k) s hemp, crawl_loop_of_empty env (n + 1) s hemp]
      · rw [crawl_loop_of_empty env (n + 1) s hemp]
        exact hemp
      · rw [crawl_loop_of_empty env (n + 1) s hemp]
        exact hinv
    | some url =>
      obtain ⟨hinv2, hM2⟩ := crawl_step_inv env links seed univ roundtrip hfetch hn
        hseedU hclosedU s url hlast hinv
      have hM3 : crawlMeasure links univ (crawl_step env s url) ≤ n := by omega
      obtain ⟨hk, hemp2, hinvf⟩ := ih (crawl_step env s url) hinv2 hM3
      refine ⟨?_, ?_, ?_⟩
      · intro k
        have e1 : n + 1 + k = (n + k) + 1 := by omega
        rw [e1, crawl_loop_succ_pop env (n + k) s url hlast, hk k,
          crawl_loop_succ_pop env n s url hlast]
      · rw [crawl_loop_succ_pop env n s url hlast]
        exact hemp2
      · rw [crawl_loop_succ_pop env n s url hlast]
        exact hinvf

/-- Visiting the seed response from a fresh spider establishes the crawl
invariant. -/
theorem crawl_init_inv {U R : Type} [DecidableEq U] (env : CrawlEnv U R)
    (links : U → List U) (seed : U) (menv : String) (r : R)
    (roundtrip : ∀ u : U, env.des (env.ser u) = some u)
    (hfetch : ∀ u : U, fetchLinks env u = some (links u))
    (hr : env.load_url (env.ser seed) = some r) :
    CrawlInv links seed
      (visit env (Spider.new (env.ser seed) menv) (env.ser seed) r) := by
  obtain ⟨hv1, hv2⟩ := visit_fetch_links env links roundtrip hfetch
    (Spider.new (env.ser seed) menv) seed r hr
  have hvis : (visit env (Spider.new (env.ser seed) menv) (env.ser seed) r).visited_urls
      = [seed] := by
    rw [hv1]
    rfl
  have hunv : (visit env (Spider.new (env.ser seed) menv) (env.ser seed) r).unvisited_urls
      = links seed := by
    rw [hv2]
    rfl
  exact
    { nodup := by
        rw [hvis]
        exact List.nodup_singleton seed
      seed_mem := by
        rw [hvis]
        exact List.mem_singleton.mpr rfl
      vis_reach := fun u hu => by
        rw [hvis, List.mem_singleton] at hu
        subst hu
        exact Reachable.seed
      unvis_reach := fun u hu => by
        rw [hunv] at hu
        exact Reachable.step Reachable.seed hu
      closed := fun u hu v hv3 => by
        rw [hvis, List.mem_singleton] at hu
        subst hu
        exact Or.inr (by
          rw [hunv]
          exact hv3) }

/-- C3: for a fetcher that succeeds on every URL of a finite link universe
containing the seed and closed under links (in particular any finite DAG of
same-domain URLs), `crawl` terminates: some fuel empties the unvisited stack,
larger fuel changes nothing, and the final visited list holds exactly the
URLs reachable from the seed, each exactly once. -/
theorem crawl_dag_terminates {U R : Type} [DecidableEq U] (env : CrawlEnv U R)
    (links : U → List U) (seed : U) (univ : List U) (menv : String)
    (roundtrip : ∀ u : U, env.des (env.ser u) = some u)
    (hfetch : ∀ u : U, fetchLinks env u = some (links u))
    (hn : univ.Nodup) (hseedU : seed ∈ univ)
    (hclosedU : ∀ u ∈ univ, ∀ v ∈ links u, v ∈ univ) :
    ∃ fuel : Nat,
      (∀ fuel2 : Nat, fuel ≤ fuel2 →
        crawl env fuel2 (Spider.new (env.ser seed) menv) =
        crawl env fuel (Spider.new (env.ser seed) menv)) ∧
      (crawl env fuel (Spider.new (env.ser seed) menv)).unvisited_urls = [] ∧
      (crawl env fuel (Spider.new (env.ser seed) menv)).visited_urls.Nodup ∧
      (∀ u : U, u ∈ (crawl env fuel (Spider.new (env.ser seed) menv)).visited_urls ↔
        Reachable links seed u) := by
  obtain ⟨r, d, hr, hb, hex⟩ := fetchLinks_inv env seed (links seed) (hfetch seed)
  have hcrawl : ∀ fuel : Nat, crawl env fuel (Spider.new (env.ser seed) menv) =
      crawl_loop env fuel (visit env (Spider.new (env.ser seed) menv) (env.ser seed) r) := by
    intro fuel
    unfold crawl
    rw [show (Spider.new (env.ser seed) menv : SpiderState U).base_url = env.ser seed from rfl,
      hr]
  have hinv1 := crawl_init_inv env links seed menv r roundtrip hfetch hr
  obtain ⟨hk, hemp, hinvf⟩ := crawl_loop_dag env links seed univ roundtrip hfetch hn
    hseedU hclosedU
    (crawlMeasure links univ (visit env (Spider.new (env.ser seed) menv) (env.ser seed) r))
    (visit env (Spider.new (env.ser seed) menv) (env.ser seed) r) hinv1 (Nat.le_refl _)
  refine ⟨crawlMeasure links univ
    (visit env (Spider.new (env.ser seed) menv) (env.ser seed) r), ?_, ?_, ?_, ?_⟩
  · intro fuel2 hf2
    rw [hcrawl fuel2, hcrawl _]
    have e : fuel2 = crawlMeasure links univ
        (visit env (Spider.new (env.ser seed) menv) (env.ser seed) r) +
        (fuel2 - crawlMeasure links univ
          (visit env (Spider.new (env.ser seed) menv) (env.ser seed) r)) := by
      omega
    rw [e, hk]
  · rw [hcrawl]
    exact hemp
  · rw [hcrawl]
    exact hinvf.nodup
  · intro u
    rw [hcrawl]
    constructor
    · exact fun hu => hinvf.vis_reach u hu
    · intro hreach
      induction hreach with
      | seed => exact hinvf.seed_mem
      | step hu2 hv2 ih2 =>
        rcases hinvf.closed _ ih2 _ hv2 with h | h
        · exact h
        · rw [hemp] at h
          cases h

/-- Witness for C3 at a concrete input: the one-URL environment, whose lone
page has no outbound links, terminates with exactly the reachable URLs
visited. -/
theorem crawl_dag_terminates_witness :
    ∃ fuel : Nat,
      (∀ fuel2 : Nat, fuel ≤ fuel2 →
        crawl unitEnv fuel2 (Spider.new (unitEnv.ser ()) "development") =
        crawl unitEnv fuel (Spider.new (unitEnv.ser ()) "development")) ∧
      (crawl unitEnv fuel (Spider.new (unitEnv.ser ()) "development")).unvisited_urls = [] ∧
      (crawl unitEnv fuel (Spider.new (unitEnv.ser ()) "development")).visited_urls.Nodup ∧
      (∀ u : Unit,
        u ∈ (crawl unitEnv fuel (Spider.new (unitEnv.ser ()) "development")).visited_urls ↔
        Reachable (fun _ => ([] : List Unit)) () u) :=
  crawl_dag_terminates unitEnv (fun _ => []) () [()] "development"
    (fun _ => rfl) (fun _ => rfl) (List.nodup_singleton ())
    (List.mem_singleton.mpr rfl)
    (fun _ _ v hv => absurd hv (List.not_mem_nil v))

end Maman
